import Mathlib

/-!
A shallow embedding of `nuitka/utils/Yaml.py` (package-configuration loading,
validation, checksum handling, caching and merging), together with proofs of
the behavioural properties of that module.

Python byte strings are modelled as `List Char` (one `Char` per byte; all
inputs of interest are ASCII), Python dicts / OrderedDicts as association
lists, and fallible Python code as `Except PyErr`.
-/

set_option autoImplicit false

namespace NuitkaYaml

/-- Python byte strings, one list element per byte. -/
abbrev Bytes := List Char

/-- The values that can appear in a parsed YAML document. -/
inductive YamlValue where
  | null
  | bool (b : Bool)
  | int (n : Int)
  | str (s : String)
  | seq (xs : List YamlValue)
  | map (m : List (String × YamlValue))
  deriving Repr

/-- One raw parsed record of a config document: a mapping (ordered dict). -/
abbrev YRecord := List (String × YamlValue)

/-- The ways the embedded code can terminate abnormally: Python exceptions
(`KeyError`, `TypeError`, `IndexError`, `ValueError`, `IOError`,
`AssertionError`) and the fatal `sysexit` calls of the source, one
constructor per distinct `sysexit` site, carrying what the message names. -/
inductive PyErr where
  | keyError (key : String)
  | typeError
  | indexError
  | valueError (msg : String)
  | ioError (what : String)
  | assertionError (key : String)
  /-- "Error, invalid config in NAME looks like an empty module name was given." -/
  | sysexitEmptyName (docName : String)
  /-- "Error, invalid module name in NAME looks like a file path VALUE." -/
  | sysexitPathLike (docName : String) (value : YamlValue)
  /-- "Error, invalid module name in NAME not valid VALUE." -/
  | sysexitInvalidName (docName : String) (value : YamlValue)
  /-- "Duplicate module-name NAME encountered." -/
  | sysexitDuplicate (moduleName : String)
  deriving Repr

/-- First-match association-list lookup (Python `dict.get`). -/
def aLookup {α : Type} [DecidableEq α] {β : Type} : List (α × β) → α → Option β
  | [], _ => none
  | (k, v) :: rest, key => if k = key then some v else aLookup rest key

/-- Python `dict.pop(key)`: the value plus the mapping without that key,
or `none` (a `KeyError`) when the key is absent. -/
def popKey (key : String) : YRecord → Option (YamlValue × YRecord)
  | [] => none
  | (k, v) :: rest =>
    if k = key then some (v, rest)
    else
      match popKey key rest with
      | some (v2, rest2) => some (v2, (k, v) :: rest2)
      | none => none

/-- Python truthiness (`not module_name`) on YAML values. -/
def pyFalsy : YamlValue → Bool
  | .null => true
  | .bool b => !b
  | .int n => n == 0
  | .str s => s.isEmpty
  | .seq xs => xs.isEmpty
  | .map m => m.isEmpty

/-- Python `"/" in module_name`: substring test for strings, `==`-membership
for sequences, key membership for mappings, `TypeError` otherwise. -/
def pyContainsSlash : YamlValue → Except PyErr Bool
  | .str s => .ok (s.data.contains '/')
  | .seq xs => .ok (xs.any fun x => match x with | .str s => s = "/" | _ => false)
  | .map m => .ok (m.any fun kv => kv.1 = "/")
  | _ => .error .typeError

/-- A character usable in a dotted-identifier component. -/
def isIdentCh (c : Char) : Bool := c.isAlphanum || c = '_'

/-- Split a character list at every dot, keeping empty components. -/
def splitDotsAux : List Char → List Char → List (List Char)
  | [], acc => [acc.reverse]
  | c :: rest, acc =>
    if c = '.' then acc.reverse :: splitDotsAux rest []
    else splitDotsAux rest (c :: acc)

/-- Modelled from the spec: `checkModuleName` lives in
`nuitka/utils/ModuleNames.py`, which is not under `src/`; per the spec a
module name passes when every dot-separated component is a valid
identifier. -/
def checkModuleName (s : String) : Bool :=
  (splitDotsAux s.data []).all fun part =>
    match part with
    | [] => false
    | c :: cs => (c.isAlpha || c = '_') && cs.all isIdentCh

/-- `checkModuleName` applied to an arbitrary YAML value: only strings can
pass the dotted-identifier validation. -/
def checkModuleNameVal : YamlValue → Bool
  | .str s => checkModuleName s
  | _ => false

/-- The accepted entries of a document: ordered mapping module name → entry. -/
abbrev ConfigData := List (String × YRecord)

/-- One iteration of the loop in `PackageConfigYaml.__init__`: pop
`module-name`, reject empty, path-like, invalid and duplicate names, then
store the remaining record under the name. -/
def processItem (docName : String) (acc : ConfigData) (item : YRecord) :
    Except PyErr ConfigData :=
  match popKey "module-name" item with
  | none => .error (.keyError "module-name")
  | some (v, rest) =>
    if pyFalsy v then .error (.sysexitEmptyName docName)
    else
      match pyContainsSlash v with
      | .error e => .error e
      | .ok hasSlash =>
        if hasSlash then .error (.sysexitPathLike docName v)
        else
          match v with
          | .str m =>
            if checkModuleName m then
              if m ∈ acc.map Prod.fst then .error (.sysexitDuplicate m)
              else .ok (acc ++ [(m, rest)])
            else .error (.sysexitInvalidName docName v)
          | _ => .error (.sysexitInvalidName docName v)

/-- The validated in-memory form of one config source
(`PackageConfigYaml.__slots__`). -/
structure PackageConfigYaml where
  name : String
  data : ConfigData
  deriving Repr

/-- `PackageConfigYaml.__init__`: validate every record in order and build
the ordered module-name → entry mapping. -/
def initConfig (name : String) (records : List YRecord) :
    Except PyErr PackageConfigYaml :=
  match records.foldlM (processItem name) ([] : ConfigData) with
  | .error e => .error e
  | .ok d => .ok ⟨name, d⟩

/-- `PackageConfigYaml.get`: look the module up, then the section inside it
(defaulting to the empty tuple), and wrap a bare mapping payload into a
one-element sequence. -/
def PackageConfigYaml.get (self : PackageConfigYaml) (name sectionName : String) :
    YamlValue :=
  let result : YamlValue :=
    match aLookup self.data name with
    | some entry =>
      match aLookup entry sectionName with
      | some v => v
      | none => .seq []
    | none => .seq []
  match result with
  | .map m => .seq [.map m]
  | r => r

/-- One iteration of the loop in `PackageConfigYaml.update`: assert the key
is not yet present, then insert. -/
def updStep (acc : ConfigData) (kv : String × YRecord) : Except PyErr ConfigData :=
  if kv.1 ∈ acc.map Prod.fst then .error (.assertionError kv.1)
  else .ok (acc ++ [kv])

/-- `PackageConfigYaml.update`: merge the entries of `other` into `self`,
asserting that no key overlaps. -/
def PackageConfigYaml.update (self other : PackageConfigYaml) :
    Except PyErr PackageConfigYaml :=
  match other.data.foldlM updStep self.data with
  | .error e => .error e
  | .ok d => .ok ⟨self.name, d⟩

/-! ## Checksum codec -/

/-- The document separator `b"\n---\n"`. -/
def yamlSep : Bytes := ['\n', '-', '-', '-', '\n']

/-- Python `sep in data`: does `sep` occur as a contiguous subsegment? -/
def containsSub (sep : Bytes) : Bytes → Bool
  | [] => sep.isEmpty
  | c :: rest => sep.isPrefixOf (c :: rest) || containsSub sep rest

/-- Python `data.split(b"\n---\n", maxsplit)`: left-to-right scan, at most
`maxsplit` cuts at non-overlapping occurrences of the separator. -/
def splitSepAux : Bytes → Bytes → Nat → List Bytes
  | s, acc, 0 => [acc.reverse ++ s]
  | [], acc, _ + 1 => [acc.reverse]
  | '\n' :: '-' :: '-' :: '-' :: '\n' :: rest, acc, n + 1 =>
    acc.reverse :: splitSepAux rest [] n
  | c :: rest, acc, n + 1 => splitSepAux rest (c :: acc) (n + 1)

/-- `data.split(b"\n---\n", maxsplit)`. -/
def splitSep (s : Bytes) (maxsplit : Nat) : List Bytes :=
  splitSepAux s [] maxsplit

/-- A hexadecimal digit character (lower case, as Python hexdigests). -/
def hexDigit (n : Nat) : Char :=
  if n < 10 then Char.ofNat (48 + n) else Char.ofNat (87 + n % 16)

/-- Hex digits of `n`, most significant first; `fuel` bounds the length. -/
def natToHexAux : Nat → Nat → List Char
  | 0, _ => []
  | fuel + 1, n => if n = 0 then [] else natToHexAux fuel (n / 16) ++ [hexDigit (n % 16)]

/-- Hex encoding of a natural number below `2 ^ 256`. -/
def natToHex (n : Nat) : List Char :=
  if n = 0 then ['0'] else natToHexAux 64 n

/-- Modelled from the spec: `getStringHash` lives in
`nuitka/utils/Hashing.py`, which is not under `src/`; per the spec it is a
stable (deterministic) string-hashing function whose result is a
hex-encoded digest, utf8-encoded back into bytes.  Modelled as a 64-bit
polynomial fold rendered in hexadecimal. -/
def getStringHash (b : Bytes) : Bytes :=
  natToHex (b.foldl (fun h c => (h * 131 + c.toNat) % (2 ^ 64)) 5381)

/-- `_calculateYamlFileChecksum`: demand a `\n---\n` separator, split on the
first two occurrences and hash the middle segment. -/
def calculateYamlFileChecksum (yaml_data : Bytes) : Except PyErr Bytes :=
  if containsSub yamlSep yaml_data then
    .ok (getStringHash ((splitSep yaml_data 2).getD 1 []))
  else
    .error (.valueError "Malformed yaml data without --- header")

/-! ## Line splitting and the checksum line -/

/-- Python `bytes.splitlines()`: cut at `\r\n`, `\r` or `\n`, no trailing
empty line for a terminal line break. -/
def splitlinesAux : Bytes → Bytes → List Bytes
  | [], [] => []
  | [], acc => [acc.reverse]
  | '\r' :: '\n' :: rest, acc => acc.reverse :: splitlinesAux rest []
  | '\n' :: rest, acc => acc.reverse :: splitlinesAux rest []
  | '\r' :: rest, acc => acc.reverse :: splitlinesAux rest []
  | c :: rest, acc => splitlinesAux rest (c :: acc)

/-- `data.splitlines()`. -/
def splitlines (s : Bytes) : List Bytes :=
  splitlinesAux s []

/-- The checksum marker including the trailing blank, `b"# checksum: "`. -/
def markerWS : Bytes := "# checksum: ".data

/-- The checksum marker without the trailing blank, `b"# checksum:"`
(used only by `checkOrUpdateChecksum`). -/
def markerNS : Bytes := "# checksum:".data

/-- Python whitespace characters for `bytes.split()` with no argument. -/
def isPySpace (c : Char) : Bool :=
  c = ' ' || c = '\t' || c = '\n' || c = '\r' || c = '\x0b' || c = '\x0c'

/-- Python `line.split()`: split on runs of whitespace, dropping empties. -/
def wsSplitAux : Bytes → Bytes → List Bytes
  | [], [] => []
  | [], acc => [acc.reverse]
  | c :: rest, acc =>
    if isPySpace c then
      match acc with
      | [] => wsSplitAux rest []
      | _ => acc.reverse :: wsSplitAux rest []
    else wsSplitAux rest (c :: acc)

/-- `line.split()`. -/
def wsSplit (s : Bytes) : List Bytes :=
  wsSplitAux s []

/-- `getYamlFileChecksum`: the digest token of line index 4 when that line
starts with the marker; `none` when absent; `IndexError` when the marker is
present but no third whitespace token exists. -/
def getYamlFileChecksum (yaml_data : Bytes) : Except PyErr (Option Bytes) :=
  let lines := splitlines yaml_data
  if 4 < lines.length then
    let line4 := lines.getD 4 []
    if markerWS.isPrefixOf line4 then
      match (wsSplit line4).get? 2 with
      | some tok => .ok (some tok)
      | none => .error .indexError
    else .ok none
  else .ok none

/-- `b"# checksum: %s" % digest`. -/
def checksumLine (digest : Bytes) : Bytes :=
  markerWS ++ digest

/-- `b"\n".join(lines) + b"\n"`. -/
def joinNL : List Bytes → Bytes
  | [] => ['\n']
  | [l] => l ++ ['\n']
  | l :: rest => l ++ '\n' :: joinNL rest

/-- What `checkOrUpdateChecksum` does to the file: the fatal
"autoformatted first" exit, a rewrite with the given new content, the fatal
mismatch exit, the "checksum valid" success, or a propagated exception. -/
inductive CheckOutcome where
  | sysexitAutoformat
  | wrote (newContent : Bytes)
  | sysexitMismatch
  | valid
  | raised (e : PyErr)
  deriving Repr

/-- `checkOrUpdateChecksum`: recompute the checksum line, reassemble the
whole file and compare it byte-for-byte against the old content; rewrite on
mismatch when updating is allowed, abort otherwise. -/
def checkOrUpdateChecksum (yaml_data_old : Bytes) (update : Bool) : CheckOutcome :=
  if (splitlines yaml_data_old).length < 5
      || !(markerNS.isPrefixOf ((splitlines yaml_data_old).getD 4 [])) then
    .sysexitAutoformat
  else
    match calculateYamlFileChecksum yaml_data_old with
    | .error e => .raised e
    | .ok digest =>
      if joinNL ((splitlines yaml_data_old).set 4 (checksumLine digest))
          ≠ yaml_data_old then
        (if update then
          .wrote (joinNL ((splitlines yaml_data_old).set 4 (checksumLine digest)))
        else .sysexitMismatch)
      else .valid

/-- The checksum classification step of `parsePackageYaml` (its
`validated` variable): `"matching"`, `"not matching"` or `"not present"`,
or a propagated exception from token extraction / checksum computation. -/
def verifyChecksumStatus (data : Bytes) : Except PyErr String :=
  if 4 < (splitlines data).length then
    if markerWS.isPrefixOf ((splitlines data).getD 4 []) then
      match (wsSplit ((splitlines data).getD 4 [])).get? 2 with
      | none => .error .indexError
      | some file_checksum =>
        match calculateYamlFileChecksum data with
        | .error e => .error e
        | .ok digest =>
          if file_checksum ≠ digest then .ok "not matching" else .ok "matching"
    else .ok "not present"
  else .ok "not present"

/-! ## Config loader and aggregator -/

/-- The external collaborators of the loader: `pkgutil.get_data` (packaged
resource lookup), the YAML engine (`parseYaml`, returning the list of raw
records or a propagated parse error), the user-provided config file list
(`getUserProvidedYamlFiles`) and `getFileContents`. -/
structure Env where
  resources : String → String → Option Bytes
  parseFn : Bytes → Except PyErr (List YRecord)
  userFiles : List String
  fileContents : String → Bytes

/-- The process-wide mutable state of the module: `_yaml_cache`, the
singleton `_package_config`, plus instrumentation (how often the YAML
engine ran, which checksum warnings were emitted). -/
structure LoaderState where
  yamlCache : List ((String × String) × PackageConfigYaml)
  packageConfig : Option PackageConfigYaml
  parseCount : Nat
  warnings : List (String × String)
  deriving Repr

/-- The state before the first load of the process. -/
def initialState : LoaderState :=
  { yamlCache := [], packageConfig := none, parseCount := 0, warnings := [] }

/-- `parsePackageYaml`: serve `(package_name, filename)` from `_yaml_cache`
when present; otherwise fetch the resource, classify its checksum (warning
unless `"matching"`), parse, validate, and cache the document. -/
def parsePackageYaml (env : Env) (package_name filename : String)
    (s : LoaderState) : Except PyErr (PackageConfigYaml × LoaderState) :=
  match aLookup s.yamlCache (package_name, filename) with
  | some doc => .ok (doc, s)
  | none =>
    match env.resources package_name filename with
    | none => .error (.ioError (package_name ++ "." ++ filename))
    | some data =>
      match verifyChecksumStatus data with
      | .error e => .error e
      | .ok validated =>
        match env.parseFn data with
        | .error e => .error e
        | .ok records =>
          match initConfig filename records with
          | .error e => .error e
          | .ok doc =>
            .ok (doc,
              { yamlCache := s.yamlCache ++ [((package_name, filename), doc)]
                packageConfig := s.packageConfig
                parseCount := s.parseCount + 1
                warnings := if validated ≠ "matching" then
                    s.warnings ++ [(filename, validated)]
                  else s.warnings })

/-- The body of the `_package_config is None` branch of
`getYamlPackageConfiguration`: the three standard sources merged in order,
the optional commercial source (a missing resource is skipped), then every
user-provided file. -/
def buildPackageConfig (env : Env) (s : LoaderState) :
    Except PyErr (PackageConfigYaml × LoaderState) :=
  match parsePackageYaml env "nuitka.plugins.standard"
      "standard.nuitka-package.config.yml" s with
  | .error e => .error e
  | .ok (c1, s1) =>
    match parsePackageYaml env "nuitka.plugins.standard"
        "stdlib2.nuitka-package.config.yml" s1 with
    | .error e => .error e
    | .ok (c2, s2) =>
      match c1.update c2 with
      | .error e => .error e
      | .ok c12 =>
        match parsePackageYaml env "nuitka.plugins.standard"
            "stdlib3.nuitka-package.config.yml" s2 with
        | .error e => .error e
        | .ok (c3, s3) =>
          match c12.update c3 with
          | .error e => .error e
          | .ok c123 =>
            match
              ((match parsePackageYaml env "nuitka.plugins.commercial"
                  "commercial.nuitka-package.config.yml" s3 with
               | .error (.ioError _) => .ok (c123, s3)
               | .error e => .error e
               | .ok (cc, s4) =>
                 match c123.update cc with
                 | .error e => .error e
                 | .ok m => .ok (m, s4)) :
                Except PyErr (PackageConfigYaml × LoaderState)) with
            | .error e => .error e
            | .ok (cBase, sBase) =>
              match env.userFiles.foldlM (fun acc ufn =>
                  (match env.parseFn (env.fileContents ufn) with
                   | .error e => .error e
                   | .ok recs =>
                     match initConfig ufn recs with
                     | .error e => .error e
                     | .ok udoc => acc.update udoc :
                    Except PyErr PackageConfigYaml)) cBase with
              | .error e => .error e
              | .ok cAll => .ok (cAll, sBase)

/-- `getYamlPackageConfiguration`: the lazily-built process-wide singleton;
once `_package_config` is set, every call returns it unchanged. -/
def getYamlPackageConfiguration (env : Env) (s : LoaderState) :
    Except PyErr (PackageConfigYaml × LoaderState) :=
  match s.packageConfig with
  | some c => .ok (c, s)
  | none =>
    match buildPackageConfig env s with
    | .error e => .error e
    | .ok (c, s') => .ok (c, { s' with packageConfig := some c })

/-! ## Concrete example inputs -/

/-- A content whose line 4 carries the checksum marker and a digest token
but which contains no `\n---\n` separator anywhere. -/
def exMarkerNoSep : Bytes := "a\nb\nc\nd\n# checksum: deadbeef\n".data

/-- An environment whose packaged resources all resolve to
`exMarkerNoSep` and whose YAML engine returns an empty record list. -/
def exEnv : Env :=
  { resources := fun _ _ => some exMarkerNoSep
    parseFn := fun _ => .ok []
    userFiles := []
    fileContents := fun _ => [] }

/-- A correctly-checksummed file whose bytes nevertheless differ from the
normalized reassembly because the final newline is missing: its digest
token equals the freshly computed digest of its body `X\n---`. -/
def exNoFinalNL : Bytes :=
  "h0\nh1\nh2\nh3\n# checksum: bcd4cddf7bee\n---\nX\n---".data

/-- A well-formed file whose stored checksum token `0` is stale: the body
between its two separators is `X`, whose digest is `ac1e7`. -/
def exStale : Bytes := "h0\nh1\nh2\nh3\n# checksum: 0\n---\nX\n---\n".data

/-! ## Generic helper lemmas -/

theorem aLookup_append_none {α : Type} [DecidableEq α] {β : Type}
    (l : List (α × β)) (k : α) (v : β) (h : aLookup l k = none) :
    aLookup (l ++ [(k, v)]) k = some v := by
  induction l with
  | nil => simp [aLookup]
  | cons kv rest ih =>
    obtain ⟨k', v'⟩ := kv
    by_cases hk : k' = k
    · simp [aLookup, hk] at h
    · simp [aLookup, hk] at h ⊢
      exact ih h

theorem set_getD_self {α : Type} (l : List α) (i : Nat) (d : α) :
    l.set i (l.getD i d) = l := by
  induction l generalizing i with
  | nil => simp
  | cons x rest ih =>
    cases i with
    | zero => simp [List.getD]
    | succ j => simpa [List.getD] using ih j

/-! ## C2: the lookup contract of `PackageConfigYaml.get` -/

/-- C2: for every Config Document `d`, module name `m` and section name `s`,
`get m s` is the empty sequence when `m` is unknown or `s` is absent from
`m`'s entry; a stored bare mapping payload comes back wrapped in a
one-element sequence; every other stored payload comes back unchanged. -/
theorem claim_C2_get_contract (d : PackageConfigYaml) (m s : String) :
    (aLookup d.data m = none → d.get m s = .seq []) ∧
    (∀ e, aLookup d.data m = some e → aLookup e s = none → d.get m s = .seq []) ∧
    (∀ e mm, aLookup d.data m = some e → aLookup e s = some (.map mm) →
      d.get m s = .seq [.map mm]) ∧
    (∀ e v, aLookup d.data m = some e → aLookup e s = some v →
      (∀ mm, v ≠ .map mm) → d.get m s = v) := by
  refine ⟨fun h => ?_, fun e h1 h2 => ?_, fun e mm h1 h2 => ?_, fun e v h1 h2 hv => ?_⟩
  · simp [PackageConfigYaml.get, h]
  · simp [PackageConfigYaml.get, h1, h2]
  · simp [PackageConfigYaml.get, h1, h2]
  · cases v <;>
      first
      | exact absurd rfl (hv _)
      | simp [PackageConfigYaml.get, h1, h2]

theorem claim_C2_get_contract_witness :
    (PackageConfigYaml.get ⟨"t", [("known",
        [("secmap", .map [("a", .int 1)]), ("seclist", .seq [.int 2])])]⟩
      "unknown" "x" = .seq []) ∧
    (PackageConfigYaml.get ⟨"t", [("known",
        [("secmap", .map [("a", .int 1)]), ("seclist", .seq [.int 2])])]⟩
      "known" "missing" = .seq []) ∧
    (PackageConfigYaml.get ⟨"t", [("known",
        [("secmap", .map [("a", .int 1)]), ("seclist", .seq [.int 2])])]⟩
      "known" "secmap" = .seq [.map [("a", .int 1)]]) ∧
    (PackageConfigYaml.get ⟨"t", [("known",
        [("secmap", .map [("a", .int 1)]), ("seclist", .seq [.int 2])])]⟩
      "known" "seclist" = .seq [.int 2]) :=
  ⟨(claim_C2_get_contract _ "unknown" "x").1 rfl,
   (claim_C2_get_contract _ "known" "missing").2.1 _ rfl rfl,
   (claim_C2_get_contract _ "known" "secmap").2.2.1 _ _ rfl rfl,
   (claim_C2_get_contract _ "known" "seclist").2.2.2 _ _ rfl rfl
     (fun _ h => YamlValue.noConfusion h)⟩

/-! ## C6: missing separator aborts checksum computation -/

/-- C6: every byte content without the `\n---\n` separator makes
`_calculateYamlFileChecksum` fail with the malformed-document `ValueError`
and produce no digest. -/
theorem claim_C6_missing_separator (data : Bytes)
    (h : containsSub yamlSep data = false) :
    calculateYamlFileChecksum data =
      .error (.valueError "Malformed yaml data without --- header") := by
  simp [calculateYamlFileChecksum, h]

theorem claim_C6_missing_separator_witness :
    containsSub yamlSep "hello: world".data = false ∧
    calculateYamlFileChecksum "hello: world".data =
      .error (.valueError "Malformed yaml data without --- header") :=
  ⟨rfl, claim_C6_missing_separator _ rfl⟩

/-! ## C10: marker with no digest token raises IndexError -/

/-- C10: when line index 4 starts with the checksum marker but carries fewer
than three whitespace-separated tokens, `getYamlFileChecksum` raises an
`IndexError`; the absent answer (`none`) arises exactly when the content has
fewer than 5 lines or line 4 lacks the marker prefix. -/
theorem claim_C10_short_marker_line :
    (∀ d : Bytes, 4 < (splitlines d).length →
      markerWS.isPrefixOf ((splitlines d).getD 4 []) = true →
      (wsSplit ((splitlines d).getD 4 [])).length < 3 →
      getYamlFileChecksum d = .error .indexError) ∧
    (∀ d : Bytes, (splitlines d).length ≤ 4 ∨
        markerWS.isPrefixOf ((splitlines d).getD 4 []) = false →
      getYamlFileChecksum d = .ok none) ∧
    (∀ d : Bytes, getYamlFileChecksum d = .ok none →
      (splitlines d).length ≤ 4 ∨
        markerWS.isPrefixOf ((splitlines d).getD 4 []) = false) := by
  refine ⟨fun d h4 hm hlen => ?_, fun d h => ?_, fun d h => ?_⟩
  · have hget : (wsSplit ((splitlines d).getD 4 [])).get? 2 = none :=
      List.get?_eq_none.mpr (by omega)
    simp only [getYamlFileChecksum, if_pos h4, if_pos hm, hget]
  · by_cases h4 : 4 < (splitlines d).length
    · rcases h with h | h
      · omega
      · simp only [getYamlFileChecksum, if_pos h4, if_neg (by rw [h]; decide :
          ¬ markerWS.isPrefixOf ((splitlines d).getD 4 []) = true)]
    · simp only [getYamlFileChecksum, if_neg h4]
  · by_cases h4 : 4 < (splitlines d).length
    · cases hm : markerWS.isPrefixOf ((splitlines d).getD 4 []) with
      | true =>
        exfalso
        rcases hget : (wsSplit ((splitlines d).getD 4 [])).get? 2 with _ | tok
        · simp only [getYamlFileChecksum, if_pos h4, if_pos hm, hget] at h
          exact absurd h (by simp)
        · simp only [getYamlFileChecksum, if_pos h4, if_pos hm, hget] at h
          exact absurd h (by simp)
      | false => exact Or.inr rfl
    · exact Or.inl (by omega)

theorem claim_C10_short_marker_line_witness :
    (4 < (splitlines "a\nb\nc\nd\n# checksum: \nmore".data).length ∧
      markerWS.isPrefixOf
        ((splitlines "a\nb\nc\nd\n# checksum: \nmore".data).getD 4 []) = true ∧
      (wsSplit ((splitlines "a\nb\nc\nd\n# checksum: \nmore".data).getD 4 [])).length < 3 ∧
      getYamlFileChecksum "a\nb\nc\nd\n# checksum: \nmore".data = .error .indexError) ∧
    getYamlFileChecksum "a\nb".data = .ok none :=
  ⟨⟨by decide, by decide, by decide,
    claim_C10_short_marker_line.1 _ (by decide) (by decide) (by decide)⟩,
   claim_C10_short_marker_line.2.1 _ (Or.inl (by decide))⟩

/-! ## C1: duplicate module names abort; disjoint merges take the union -/

@[simp] theorem except_bind_error {e : Type} {a b : Type} (err : e)
    (f : a -> Except e b) : (Except.error err >>= f) = Except.error err := rfl

@[simp] theorem except_bind_ok {e : Type} {a b : Type} (x : a)
    (f : a -> Except e b) : (Except.ok x >>= f) = f x := rfl

@[simp] theorem except_pure {e : Type} {a : Type} (x : a) :
    (pure x : Except e a) = Except.ok x := rfl

theorem processItem_ok_shape {docName : String} {acc acc2 : ConfigData}
    {item : YRecord} (h : processItem docName acc item = .ok acc2) :
    ∃ m rest, popKey "module-name" item = some (.str m, rest) ∧
      acc2 = acc ++ [(m, rest)] ∧ m ∉ acc.map Prod.fst := by
  unfold processItem at h
  split at h
  · exact absurd h (by simp)
  rename_i v rest hp
  split at h
  · exact absurd h (by simp)
  rename_i hf
  split at h
  · exact absurd h (by simp)
  rename_i slash hs
  split at h
  · exact absurd h (by simp)
  rename_i hsl
  split at h
  · rename_i m
    split at h
    · split at h
      · exact absurd h (by simp)
      · rename_i hc hmem
        refine ⟨m, rest, ?_, ?_, hmem⟩
        · rw [hp]
        · simpa using h.symm
    · exact absurd h (by simp)
  · exact absurd h (by simp)

theorem processItem_collision {docName : String} {acc : ConfigData}
    {item : YRecord} {m : String} {rest : YRecord}
    (hp : popKey "module-name" item = some (.str m, rest))
    (hmem : m ∈ acc.map Prod.fst) :
    ∃ e, processItem docName acc item = .error e := by
  rcases h : processItem docName acc item with e | acc2
  · exact ⟨e, rfl⟩
  · obtain ⟨m2, rest2, hp2, -, hmem2⟩ := processItem_ok_shape h
    rw [hp] at hp2
    simp only [Option.some.injEq, Prod.mk.injEq, YamlValue.str.injEq] at hp2
    exact absurd (hp2.1 ▸ hmem) hmem2

theorem foldlM_processItem_future_collision (docName : String) :
    ∀ (l : List YRecord) (acc : ConfigData) (m : String),
      (∃ it ∈ l, ∃ r, popKey "module-name" it = some (.str m, r)) →
      m ∈ acc.map Prod.fst →
      ∃ e, l.foldlM (processItem docName) acc = .error e := by
  intro l
  induction l with
  | nil => rintro acc m ⟨it, hit, -⟩ _; cases hit
  | cons hd tl ih =>
    rintro acc m ⟨it, hit, r, hpop⟩ hmem
    rcases hstep : processItem docName acc hd with e | acc2
    · exact ⟨e, by simp only [List.foldlM_cons, hstep, except_bind_error]⟩
    · obtain ⟨mh, resth, -, hshape, -⟩ := processItem_ok_shape hstep
      rcases List.mem_cons.mp hit with rfl | htl
      · obtain ⟨e, he⟩ := processItem_collision hpop hmem
        rw [hstep] at he
        exact absurd he (by simp)
      · have hmem2 : m ∈ acc2.map Prod.fst := by
          subst hshape
          simp only [List.map_append, List.mem_append]
          exact Or.inl hmem
        obtain ⟨e, he⟩ := ih acc2 m ⟨it, htl, r, hpop⟩ hmem2
        exact ⟨e, by
          simp only [List.foldlM_cons, hstep, except_bind_ok]
          exact he⟩

theorem foldlM_processItem_dup (docName : String) {it1 it2 : YRecord}
    {m : String} {r1 r2 : YRecord}
    (h1 : popKey "module-name" it1 = some (.str m, r1))
    (h2 : popKey "module-name" it2 = some (.str m, r2)) :
    ∀ (l1 : List YRecord) (l2 l3 : List YRecord) (acc : ConfigData),
      ∃ e, (l1 ++ it1 :: (l2 ++ it2 :: l3)).foldlM (processItem docName) acc
        = .error e := by
  intro l1
  induction l1 with
  | nil =>
    intro l2 l3 acc
    rcases hstep : processItem docName acc it1 with e | acc2
    · exact ⟨e, by simp only [List.nil_append, List.foldlM_cons, hstep,
        except_bind_error]⟩
    · obtain ⟨m2, r12, hp2, hshape, -⟩ := processItem_ok_shape hstep
      rw [h1] at hp2
      simp only [Option.some.injEq, Prod.mk.injEq, YamlValue.str.injEq] at hp2
      have hmem : m ∈ acc2.map Prod.fst := by
        subst hshape
        simp only [List.map_append, List.mem_append]
        right
        simp [hp2.1]
      obtain ⟨e, he⟩ := foldlM_processItem_future_collision docName
        (l2 ++ it2 :: l3) acc2 m ⟨it2, by simp, r2, h2⟩ hmem
      exact ⟨e, by
        simp only [List.nil_append, List.foldlM_cons, hstep, except_bind_ok]
        exact he⟩
  | cons hd tl ih =>
    intro l2 l3 acc
    rcases hstep : processItem docName acc hd with e | acc2
    · exact ⟨e, by simp only [List.cons_append, List.foldlM_cons, hstep,
        except_bind_error]⟩
    · obtain ⟨e, he⟩ := ih l2 l3 acc2
      exact ⟨e, by
        simp only [List.cons_append, List.foldlM_cons, hstep, except_bind_ok]
        exact he⟩

theorem foldlM_updStep_collision :
    ∀ (l : List (String × YRecord)) (acc : ConfigData),
      (∃ kv ∈ l, kv.1 ∈ acc.map Prod.fst) →
      ∃ e, l.foldlM updStep acc = .error e := by
  intro l
  induction l with
  | nil => rintro acc ⟨kv, hkv, -⟩; cases hkv
  | cons hd tl ih =>
    rintro acc ⟨kv, hkv, hmem⟩
    by_cases hhd : hd.1 ∈ acc.map Prod.fst
    · refine ⟨.assertionError hd.1, ?_⟩
      simp only [List.foldlM_cons, updStep, if_pos hhd, except_bind_error]
    · rcases List.mem_cons.mp hkv with rfl | htl
      · exact absurd hmem hhd
      · obtain ⟨e, he⟩ := ih (acc ++ [hd]) ⟨kv, htl, by
          simp only [List.map_append, List.mem_append]
          exact Or.inl hmem⟩
        refine ⟨e, ?_⟩
        simp only [List.foldlM_cons, updStep, if_neg hhd, except_bind_ok]
        exact he

theorem foldlM_updStep_disjoint :
    ∀ (l : List (String × YRecord)) (acc : ConfigData),
      (l.map Prod.fst).Nodup →
      (∀ kv ∈ l, kv.1 ∉ acc.map Prod.fst) →
      l.foldlM updStep acc = .ok (acc ++ l) := by
  intro l
  induction l with
  | nil => intro acc _ _; simp
  | cons hd tl ih =>
    intro acc hnd hdis
    have hhd : hd.1 ∉ acc.map Prod.fst := hdis hd (by simp)
    rw [List.map_cons, List.nodup_cons] at hnd
    obtain ⟨hhd_tl, hnd2⟩ := hnd
    have hdis2 : ∀ kv ∈ tl, kv.1 ∉ (acc ++ [hd]).map Prod.fst := by
      intro kv hkv
      simp only [List.map_append, List.mem_append, List.map_cons,
        List.map_nil, List.mem_singleton, not_or]
      refine ⟨hdis kv (List.mem_cons_of_mem _ hkv), fun hc => ?_⟩
      exact hhd_tl (hc ▸ List.mem_map_of_mem Prod.fst hkv)
    have hrec := ih (acc ++ [hd]) hnd2 hdis2
    simp only [List.foldlM_cons, updStep, if_neg hhd, except_bind_ok]
    rw [hrec]
    simp

/-- C1: a module name occurring in two records of one document aborts its
construction; merging two documents that share a module name aborts; and
merging two documents with disjoint module-name sets succeeds with exactly
the concatenation (union) of their entries. -/
theorem claim_C1_duplicate_module_names :
    (∀ (name : String) (l1 l2 l3 : List YRecord) (it1 it2 : YRecord)
        (m : String) (r1 r2 : YRecord),
      popKey "module-name" it1 = some (.str m, r1) →
      popKey "module-name" it2 = some (.str m, r2) →
      ∃ e, initConfig name (l1 ++ it1 :: (l2 ++ it2 :: l3)) = .error e) ∧
    (∀ d1 d2 : PackageConfigYaml,
      (∃ k, k ∈ d1.data.map Prod.fst ∧ k ∈ d2.data.map Prod.fst) →
      ∃ e, d1.update d2 = .error e) ∧
    (∀ d1 d2 : PackageConfigYaml,
      (d2.data.map Prod.fst).Nodup →
      (∀ k ∈ d2.data.map Prod.fst, k ∉ d1.data.map Prod.fst) →
      d1.update d2 = .ok ⟨d1.name, d1.data ++ d2.data⟩) := by
  refine ⟨fun name l1 l2 l3 it1 it2 m r1 r2 h1 h2 => ?_,
    fun d1 d2 ⟨k, hk1, hk2⟩ => ?_, fun d1 d2 hnd hdis => ?_⟩
  · obtain ⟨e, he⟩ := foldlM_processItem_dup name h1 h2 l1 l2 l3 []
    refine ⟨e, ?_⟩
    unfold initConfig
    rw [he]
  · obtain ⟨kv, hkv, hfst⟩ := List.mem_map.mp hk2
    obtain ⟨e, he⟩ := foldlM_updStep_collision d2.data d1.data
      ⟨kv, hkv, hfst ▸ hk1⟩
    refine ⟨e, ?_⟩
    unfold PackageConfigYaml.update
    rw [he]
  · have hrec := foldlM_updStep_disjoint d2.data d1.data hnd
      (fun kv hkv => hdis kv.1 (List.mem_map_of_mem Prod.fst hkv))
    unfold PackageConfigYaml.update
    rw [hrec]

theorem claim_C1_duplicate_module_names_witness :
    (∃ e, initConfig "w" [[("module-name", .str "foo")],
        [("module-name", .str "foo")]] = .error e) ∧
    (∃ e, PackageConfigYaml.update ⟨"a", [("x", [])]⟩ ⟨"b", [("x", [])]⟩
      = .error e) ∧
    PackageConfigYaml.update ⟨"a", [("x", [])]⟩ ⟨"c", [("y", [])]⟩
      = .ok ⟨"a", [("x", []), ("y", [])]⟩ :=
  ⟨claim_C1_duplicate_module_names.1 "w" [] [] []
      [("module-name", .str "foo")] [("module-name", .str "foo")]
      "foo" [] [] rfl rfl,
   claim_C1_duplicate_module_names.2.1 _ _ ⟨"x", by simp, by simp⟩,
   claim_C1_duplicate_module_names.2.2 _ _ (by simp) (by simp)⟩

/-! ## C4: validation order; a record without `module-name` raises KeyError -/

theorem processItem_missing_key {docName : String} {acc : ConfigData}
    {item : YRecord} (hp : popKey "module-name" item = none) :
    processItem docName acc item = .error (.keyError "module-name") := by
  unfold processItem
  rw [hp]

theorem foldlM_processItem_missing (docName : String) :
    ∀ (l : List YRecord) (acc : ConfigData),
      (∃ it ∈ l, popKey "module-name" it = none) →
      ∃ e, l.foldlM (processItem docName) acc = .error e := by
  intro l
  induction l with
  | nil => rintro acc ⟨it, hit, -⟩; cases hit
  | cons hd tl ih =>
    rintro acc ⟨it, hit, hpop⟩
    rcases List.mem_cons.mp hit with rfl | htl
    · refine ⟨.keyError "module-name", ?_⟩
      simp only [List.foldlM_cons, processItem_missing_key hpop,
        except_bind_error]
    · rcases hstep : processItem docName acc hd with e | acc2
      · exact ⟨e, by simp only [List.foldlM_cons, hstep, except_bind_error]⟩
      · obtain ⟨e, he⟩ := ih acc2 ⟨it, htl, hpop⟩
        exact ⟨e, by
          simp only [List.foldlM_cons, hstep, except_bind_ok]
          exact he⟩

/-- C4 counterexample: a record that lacks the `module-name` key makes
construction fail with an unhandled `KeyError`, not with the fatal
empty-module-name error naming the offending document. -/
theorem claim_C4_counterexample :
    initConfig "somedoc" [[("anti-bloat", YamlValue.seq [])]]
      = .error (.keyError "module-name") ∧
    initConfig "somedoc" [[("anti-bloat", YamlValue.seq [])]]
      ≠ .error (.sysexitEmptyName "somedoc") := by
  refine ⟨rfl, ?_⟩
  rw [show initConfig "somedoc" [[("anti-bloat", YamlValue.seq [])]]
    = Except.error (PyErr.keyError "module-name") from rfl]
  simp

/-- C4 amended: construction processes records in order, applying
module-name extraction (a record lacking the key raises a `KeyError`,
aborting the load, rather than the document-naming fatal error), then the
emptiness check, then path-separator rejection, then identifier-syntax
validation, then duplicate rejection, and accepts the record only past all
of them. -/
theorem claim_C4_construction_order :
    (∀ (doc : String) (acc : ConfigData) (item : YRecord),
      popKey "module-name" item = none →
      processItem doc acc item = .error (.keyError "module-name")) ∧
    (∀ (name : String) (records : List YRecord),
      (∃ it ∈ records, popKey "module-name" it = none) →
      ∃ e, initConfig name records = .error e) ∧
    (∀ (doc : String) (acc : ConfigData) (item : YRecord) (v : YamlValue)
        (rest : YRecord),
      popKey "module-name" item = some (v, rest) → pyFalsy v = true →
      processItem doc acc item = .error (.sysexitEmptyName doc)) ∧
    (∀ (doc : String) (acc : ConfigData) (item : YRecord) (m : String)
        (rest : YRecord),
      popKey "module-name" item = some (.str m, rest) →
      pyFalsy (.str m) = false → m.data.contains '/' = true →
      processItem doc acc item = .error (.sysexitPathLike doc (.str m))) ∧
    (∀ (doc : String) (acc : ConfigData) (item : YRecord) (m : String)
        (rest : YRecord),
      popKey "module-name" item = some (.str m, rest) →
      pyFalsy (.str m) = false → m.data.contains '/' = false →
      checkModuleName m = false →
      processItem doc acc item = .error (.sysexitInvalidName doc (.str m))) ∧
    (∀ (doc : String) (acc : ConfigData) (item : YRecord) (m : String)
        (rest : YRecord),
      popKey "module-name" item = some (.str m, rest) →
      pyFalsy (.str m) = false → m.data.contains '/' = false →
      checkModuleName m = true → m ∈ acc.map Prod.fst →
      processItem doc acc item = .error (.sysexitDuplicate m)) ∧
    (∀ (doc : String) (acc : ConfigData) (item : YRecord) (m : String)
        (rest : YRecord),
      popKey "module-name" item = some (.str m, rest) →
      pyFalsy (.str m) = false → m.data.contains '/' = false →
      checkModuleName m = true → m ∉ acc.map Prod.fst →
      processItem doc acc item = .ok (acc ++ [(m, rest)])) := by
  refine ⟨fun doc acc item hp => processItem_missing_key hp,
    fun name records hex => ?_,
    fun doc acc item v rest hp hf => ?_,
    fun doc acc item m rest hp hf hsl => ?_,
    fun doc acc item m rest hp hf hsl hc => ?_,
    fun doc acc item m rest hp hf hsl hc hmem => ?_,
    fun doc acc item m rest hp hf hsl hc hmem => ?_⟩
  · obtain ⟨e, he⟩ := foldlM_processItem_missing name records [] hex
    refine ⟨e, ?_⟩
    unfold initConfig
    rw [he]
  · simp [processItem, hp, hf]
  · have hsl2 : '/' ∈ m.data := by simpa using hsl
    simp [processItem, pyContainsSlash, hp, hf, hsl2]
  · have hsl2 : '/' ∉ m.data := by simpa using hsl
    simp [processItem, pyContainsSlash, hp, hf, hsl2, hc]
  · have hsl2 : '/' ∉ m.data := by simpa using hsl
    simp [processItem, pyContainsSlash, hp, hf, hsl2, hc, hmem]
  · have hsl2 : '/' ∉ m.data := by simpa using hsl
    simp [processItem, pyContainsSlash, hp, hf, hsl2, hc, hmem]

theorem claim_C4_construction_order_witness :
    processItem "d" [] [] = .error (.keyError "module-name") ∧
    (∃ e, initConfig "d" [[]] = .error e) ∧
    processItem "d" [] [("module-name", .str "")]
      = .error (.sysexitEmptyName "d") ∧
    processItem "d" [] [("module-name", .str "a/b")]
      = .error (.sysexitPathLike "d" (.str "a/b")) ∧
    processItem "d" [] [("module-name", .str "a-b")]
      = .error (.sysexitInvalidName "d" (.str "a-b")) ∧
    processItem "d" [("foo", [])] [("module-name", .str "foo")]
      = .error (.sysexitDuplicate "foo") ∧
    processItem "d" [] [("module-name", .str "foo"), ("implicit-imports", .seq [])]
      = .ok [("foo", [("implicit-imports", .seq [])])] :=
  ⟨claim_C4_construction_order.1 "d" [] [] rfl,
   claim_C4_construction_order.2.1 "d" [[]] ⟨[], by simp, rfl⟩,
   claim_C4_construction_order.2.2.1 "d" [] _ (.str "") [] rfl rfl,
   claim_C4_construction_order.2.2.2.1 "d" [] _ "a/b" [] rfl rfl (by decide),
   claim_C4_construction_order.2.2.2.2.1 "d" [] _ "a-b" [] rfl rfl (by decide)
     (by decide),
   claim_C4_construction_order.2.2.2.2.2.1 "d" [("foo", [])] _ "foo" []
     rfl rfl (by decide) (by decide) (by simp),
   claim_C4_construction_order.2.2.2.2.2.2 "d" [] _ "foo"
     [("implicit-imports", .seq [])] rfl rfl (by decide) (by decide) (by simp)⟩

/-! ## C5: checksum classification during normal loading -/

/-- C5 counterexample: with the checksum marker present on line 4 but no
`\n---\n` separator in the content, the classification step raises a
`ValueError` and the packaged-resource load aborts, so classification is
not total over the three statuses and can abort the load. -/
theorem claim_C5_counterexample :
    verifyChecksumStatus exMarkerNoSep
      = .error (.valueError "Malformed yaml data without --- header") ∧
    parsePackageYaml exEnv "nuitka.plugins.standard"
        "standard.nuitka-package.config.yml" initialState
      = .error (.valueError "Malformed yaml data without --- header") :=
  ⟨rfl, rfl⟩

/-- C5 amended: every classification that completes yields exactly one of
`"matching"`, `"not matching"`, `"not present"`; contents with fewer than
5 lines or no marker on line 4 classify as `"not present"`; and a
completed non-`"matching"` classification only appends a warning while the
load continues to parse, validate and cache the document.  (When the
marker is present but the separator is missing — or the marker carries no
digest token — classification instead raises and the load aborts.) -/
theorem claim_C5_classification :
    (∀ (data : Bytes) (v : String), verifyChecksumStatus data = .ok v →
      v = "matching" ∨ v = "not matching" ∨ v = "not present") ∧
    (∀ data : Bytes, (splitlines data).length ≤ 4 ∨
        markerWS.isPrefixOf ((splitlines data).getD 4 []) = false →
      verifyChecksumStatus data = .ok "not present") ∧
    (∀ (env : Env) (pkg fn : String) (s : LoaderState) (data : Bytes)
        (v : String) (records : List YRecord) (doc : PackageConfigYaml),
      aLookup s.yamlCache (pkg, fn) = none →
      env.resources pkg fn = some data →
      verifyChecksumStatus data = .ok v → v ≠ "matching" →
      env.parseFn data = .ok records → initConfig fn records = .ok doc →
      parsePackageYaml env pkg fn s = .ok (doc,
        { yamlCache := s.yamlCache ++ [((pkg, fn), doc)]
          packageConfig := s.packageConfig
          parseCount := s.parseCount + 1
          warnings := s.warnings ++ [(fn, v)] })) := by
  refine ⟨fun data v h => ?_, fun data h => ?_,
    fun env pkg fn s data v records doc hc hr hv hnm hp hi => ?_⟩
  · simp only [verifyChecksumStatus] at h
    split at h
    · split at h
      · split at h
        · exact Except.noConfusion h
        · split at h
          · exact Except.noConfusion h
          · split at h
            · exact Or.inr (Or.inl (Except.ok.inj h).symm)
            · exact Or.inl (Except.ok.inj h).symm
      · exact Or.inr (Or.inr (Except.ok.inj h).symm)
    · exact Or.inr (Or.inr (Except.ok.inj h).symm)
  · by_cases h4 : 4 < (splitlines data).length
    · rcases h with h | h
      · omega
      · simp only [verifyChecksumStatus, if_pos h4, if_neg (by rw [h]; decide :
          ¬ markerWS.isPrefixOf ((splitlines data).getD 4 []) = true)]
    · simp only [verifyChecksumStatus, if_neg h4]
  · unfold parsePackageYaml
    simp only [hc, hr, hv, hp, hi]
    rw [if_pos hnm]

theorem claim_C5_classification_witness :
    verifyChecksumStatus "a\nb".data = .ok "not present" ∧
    verifyChecksumStatus "a\nb\nc\nd\n# checksum: x\n---\nQ\n---\n".data
      = .ok "not matching" ∧
    parsePackageYaml
      { resources := fun _ _ => some "a\nb\nc\nd\n# checksum: x\n---\nQ\n---\n".data
        parseFn := fun _ => .ok []
        userFiles := []
        fileContents := fun _ => [] } "p" "f" initialState
      = .ok (⟨"f", []⟩,
        { yamlCache := [(("p", "f"), ⟨"f", []⟩)]
          packageConfig := none
          parseCount := 1
          warnings := [("f", "not matching")] }) :=
  ⟨claim_C5_classification.2.1 _ (Or.inl (by decide)),
   rfl,
   claim_C5_classification.2.2 _ "p" "f" initialState _ "not matching" [] _
     rfl rfl rfl (by decide) rfl rfl⟩

/-! ## C7: the load cache and the process-wide singleton -/

theorem claim_C7_singleton_and_cache :
    (∀ (env : Env) (pkg fn : String) (s : LoaderState)
        (doc : PackageConfigYaml) (s2 : LoaderState),
      parsePackageYaml env pkg fn s = .ok (doc, s2) →
      parsePackageYaml env pkg fn s2 = .ok (doc, s2)) ∧
    (∀ (env : Env) (s : LoaderState) (c : PackageConfigYaml)
        (s2 : LoaderState),
      getYamlPackageConfiguration env s = .ok (c, s2) →
      s2.packageConfig = some c ∧
      getYamlPackageConfiguration env s2 = .ok (c, s2)) := by
  constructor
  · intro env pkg fn s doc s2 h
    unfold parsePackageYaml at h
    rcases hcach : aLookup s.yamlCache (pkg, fn) with _ | doc0 <;>
        simp only [hcach] at h
    · rcases hr : env.resources pkg fn with _ | data <;> simp only [hr] at h
      · exact absurd h (by simp)
      · rcases hv : verifyChecksumStatus data with e | v <;> simp only [hv] at h
        · exact absurd h (by simp)
        · rcases hp : env.parseFn data with e | records <;> simp only [hp] at h
          · exact absurd h (by simp)
          · rcases hi : initConfig fn records with e | doc1 <;> simp only [hi] at h
            · exact absurd h (by simp)
            · simp only [Except.ok.injEq, Prod.mk.injEq] at h
              obtain ⟨hdoc, hs2⟩ := h
              subst hdoc
              have hcache2 : aLookup s2.yamlCache (pkg, fn) = some doc1 := by
                rw [← hs2]
                exact aLookup_append_none _ _ _ hcach
              unfold parsePackageYaml
              simp only [hcache2]
    · simp only [Except.ok.injEq, Prod.mk.injEq] at h
      obtain ⟨hdoc, hs2⟩ := h
      subst hdoc hs2
      unfold parsePackageYaml
      simp only [hcach]
  · intro env s c s2 h
    unfold getYamlPackageConfiguration at h
    rcases hpc : s.packageConfig with _ | c0 <;> simp only [hpc] at h
    · rcases hb : buildPackageConfig env s with e | p <;> simp only [hb] at h
      · exact absurd h (by simp)
      · obtain ⟨c1, s1⟩ := p
        simp only [Except.ok.injEq, Prod.mk.injEq] at h
        obtain ⟨hc1, hs2⟩ := h
        have hpc2 : s2.packageConfig = some c := by
          rw [← hs2, ← hc1]
        refine ⟨hpc2, ?_⟩
        unfold getYamlPackageConfiguration
        simp only [hpc2]
    · simp only [Except.ok.injEq, Prod.mk.injEq] at h
      obtain ⟨hc1, hs2⟩ := h
      have hpc2 : s2.packageConfig = some c := by
        rw [← hs2, ← hc1]
        exact hpc
      refine ⟨hpc2, ?_⟩
      unfold getYamlPackageConfiguration
      simp only [hpc2]

theorem claim_C7_singleton_and_cache_witness :
    (parsePackageYaml
        { resources := fun _ _ => some "a\nb\nc\nd\n# checksum: x\n---\nQ\n---\n".data
          parseFn := fun _ => .ok []
          userFiles := []
          fileContents := fun _ => [] } "p" "f"
        { yamlCache := [(("p", "f"), ⟨"f", []⟩)]
          packageConfig := none
          parseCount := 1
          warnings := [("f", "not matching")] }
      = .ok (⟨"f", []⟩,
        { yamlCache := [(("p", "f"), ⟨"f", []⟩)]
          packageConfig := none
          parseCount := 1
          warnings := [("f", "not matching")] })) ∧
    (getYamlPackageConfiguration
        { resources := fun _ _ => some "a\nb\nc\nd\n# checksum: x\n---\nQ\n---\n".data
          parseFn := fun _ => .ok []
          userFiles := []
          fileContents := fun _ => [] }
        { yamlCache := []
          packageConfig := some ⟨"f", []⟩
          parseCount := 1
          warnings := [] }
      = .ok (⟨"f", []⟩,
        { yamlCache := []
          packageConfig := some ⟨"f", []⟩
          parseCount := 1
          warnings := [] })) :=
  ⟨claim_C7_singleton_and_cache.1 _ "p" "f"
      { yamlCache := []
        packageConfig := none
        parseCount := 0
        warnings := [] } _ _ rfl,
   (claim_C7_singleton_and_cache.2 _
      { yamlCache := []
        packageConfig := some ⟨"f", []⟩
        parseCount := 1
        warnings := [] } ⟨"f", []⟩ _ rfl).2⟩

/-! ## C3: the digest covers exactly the segment between the first two
separators -/

theorem sep_prefix_append (b : Bytes) :
    yamlSep.isPrefixOf (yamlSep ++ b) = true :=
  List.isPrefixOf_iff_prefix.mpr (List.prefix_append _ _)

theorem containsSub_of_prefix {sep s : Bytes} (h : sep.isPrefixOf s = true)
    (hne : s ≠ []) : containsSub sep s = true := by
  cases s with
  | nil => exact absurd rfl hne
  | cons c rest => simp [containsSub, h]

theorem containsSub_append_sep (a b : Bytes) :
    containsSub yamlSep (a ++ (yamlSep ++ b)) = true := by
  induction a with
  | nil =>
    simpa using containsSub_of_prefix (sep_prefix_append b) (by simp [yamlSep])
  | cons c a2 ih =>
    rw [List.cons_append]
    simp [containsSub, ih]

theorem splitSepAux_sep (rest acc : Bytes) (n : Nat) :
    splitSepAux (yamlSep ++ rest) acc (n + 1) =
      acc.reverse :: splitSepAux rest [] n := rfl

theorem splitSepAux_cons (c : Char) (rest acc : Bytes) (n : Nat)
    (h : yamlSep.isPrefixOf (c :: rest) = false) :
    splitSepAux (c :: rest) acc (n + 1) = splitSepAux rest (c :: acc) (n + 1) := by
  rw [splitSepAux.eq_def]
  split
  · rename_i heq
    exact absurd heq (by omega)
  · rename_i heq _
    exact absurd heq (by simp)
  · rename_i rest2 n2 heq hn
    exfalso
    rw [heq] at h
    have htrue : yamlSep.isPrefixOf ('\n' :: '-' :: '-' :: '-' :: '\n' :: rest2)
        = true := sep_prefix_append rest2
    rw [htrue] at h
    exact Bool.noConfusion h
  · rename_i c2 rest2 n2 hcon heq1 heq2
    injection heq1 with hc hrest
    subst hc hrest
    have hn2 : n2 = n := (Nat.succ.inj heq2).symm
    subst hn2
    rfl

theorem splitSepAux_nosep :
    ∀ (s acc : Bytes) (n : Nat), containsSub yamlSep s = false →
      splitSepAux s acc (n + 1) = [acc.reverse ++ s] := by
  intro s
  induction s with
  | nil => intro acc n _; simp [splitSepAux]
  | cons c rest ih =>
    intro acc n h
    simp only [containsSub, Bool.or_eq_false_iff] at h
    rw [splitSepAux_cons c rest acc n h.1, ih (c :: acc) n h.2]
    simp

theorem take_eq_within (j : Nat) (hj : j ≤ 4) (rest : Bytes) :
    (yamlSep ++ rest).take j = (yamlSep.take 4).take j := by
  rw [List.take_append_eq_append_take, List.take_take]
  have h5 : yamlSep.length = 5 := rfl
  have hj0 : j - yamlSep.length = 0 := by omega
  rw [hj0, List.take_zero, List.append_nil, min_eq_left hj]

theorem sep_prefix_within (a rest : Bytes) (c : Char)
    (h : yamlSep.isPrefixOf (c :: (a ++ (yamlSep ++ rest))) = true) :
    containsSub yamlSep ((c :: a) ++ yamlSep.take 4) = true := by
  have hpre : yamlSep <+: (c :: (a ++ (yamlSep ++ rest))) :=
    List.isPrefixOf_iff_prefix.mp h
  have htake : yamlSep = (c :: (a ++ (yamlSep ++ rest))).take 5 :=
    List.prefix_iff_eq_take.mp hpre
  have htake2 : (c :: (a ++ (yamlSep ++ rest))).take 5
      = (c :: (a ++ yamlSep.take 4)).take 5 := by
    have hj : 4 - a.length - yamlSep.length = 0 := by
      have h5 : yamlSep.length = 5 := rfl
      omega
    simp only [List.take_succ_cons, List.cons.injEq, true_and,
      List.take_append_eq_append_take, List.take_take, hj, List.take_zero,
      List.append_nil]
    rw [min_eq_left (by omega : 4 - a.length ≤ 4)]
  have hpre2 : yamlSep <+: (c :: (a ++ yamlSep.take 4)) := by
    rw [List.prefix_iff_eq_take]
    show yamlSep = (c :: (a ++ yamlSep.take 4)).take 5
    rw [← htake2, ← htake]
  have hisp : yamlSep.isPrefixOf (c :: (a ++ yamlSep.take 4)) = true :=
    List.isPrefixOf_iff_prefix.mpr hpre2
  rw [List.cons_append]
  simp [containsSub, hisp]

theorem splitSep_body :
    ∀ (a : Bytes) (rest acc : Bytes) (n : Nat),
      containsSub yamlSep (a ++ yamlSep.take 4) = false →
      splitSepAux (a ++ (yamlSep ++ rest)) acc (n + 1) =
        (acc.reverse ++ a) :: splitSepAux rest [] n := by
  intro a
  induction a with
  | nil => intro rest acc n _; simpa using splitSepAux_sep rest acc n
  | cons c a2 ih =>
    intro rest acc n h
    rw [List.cons_append]
    by_cases hp : yamlSep.isPrefixOf (c :: (a2 ++ (yamlSep ++ rest))) = true
    · exact absurd (sep_prefix_within a2 rest c hp) (by simpa using h)
    · have hp2 : yamlSep.isPrefixOf (c :: (a2 ++ (yamlSep ++ rest))) = false := by
        revert hp
        cases yamlSep.isPrefixOf (c :: (a2 ++ (yamlSep ++ rest))) <;> simp
      rw [splitSepAux_cons c _ acc n hp2]
      have hh : containsSub yamlSep (a2 ++ yamlSep.take 4) = false := by
        simp only [List.cons_append, containsSub, Bool.or_eq_false_iff] at h
        exact h.2
      rw [ih rest (c :: acc) n hh]
      simp

/-- C3: for contents of the form `pre ++ "\n---\n" ++ mid ++ "\n---\n" ++
post`, where the separators shown are the first two occurrences (no earlier
occurrence inside `pre` or `mid`, including across the boundary), the
computed digest is exactly the stable hash of `mid`; in particular the
bytes before the first separator and after the second never affect it. -/
theorem claim_C3_checksum_covers_body :
    (∀ pre mid post : Bytes,
      containsSub yamlSep (pre ++ yamlSep.take 4) = false →
      containsSub yamlSep (mid ++ yamlSep.take 4) = false →
      calculateYamlFileChecksum (pre ++ (yamlSep ++ (mid ++ (yamlSep ++ post))))
        = .ok (getStringHash mid)) ∧
    (∀ pre1 post1 pre2 post2 mid : Bytes,
      containsSub yamlSep (pre1 ++ yamlSep.take 4) = false →
      containsSub yamlSep (pre2 ++ yamlSep.take 4) = false →
      containsSub yamlSep (mid ++ yamlSep.take 4) = false →
      calculateYamlFileChecksum
          (pre1 ++ (yamlSep ++ (mid ++ (yamlSep ++ post1))))
        = calculateYamlFileChecksum
          (pre2 ++ (yamlSep ++ (mid ++ (yamlSep ++ post2))))) := by
  have main : ∀ pre mid post : Bytes,
      containsSub yamlSep (pre ++ yamlSep.take 4) = false →
      containsSub yamlSep (mid ++ yamlSep.take 4) = false →
      calculateYamlFileChecksum (pre ++ (yamlSep ++ (mid ++ (yamlSep ++ post))))
        = .ok (getStringHash mid) := by
    intro pre mid post hpre hmid
    have hcontains := containsSub_append_sep pre (mid ++ (yamlSep ++ post))
    unfold calculateYamlFileChecksum splitSep
    rw [if_pos hcontains]
    rw [splitSep_body pre (mid ++ (yamlSep ++ post)) [] 1 hpre]
    rw [splitSep_body mid post [] 0 hmid]
    simp [splitSepAux]
  exact ⟨main, fun pre1 post1 pre2 post2 mid h1 h2 hm => by
    rw [main pre1 mid post1 h1 hm, main pre2 mid post2 h2 hm]⟩

theorem claim_C3_checksum_covers_body_witness :
    calculateYamlFileChecksum
        ("hdr".data ++ (yamlSep ++ ("body".data ++ (yamlSep ++ "tail".data))))
      = .ok (getStringHash "body".data) ∧
    calculateYamlFileChecksum
        ("hdr".data ++ (yamlSep ++ ("body".data ++ (yamlSep ++ "tail".data))))
      = calculateYamlFileChecksum
        ("other header".data ++ (yamlSep ++ ("body".data ++ (yamlSep ++ "yy".data)))) :=
  ⟨claim_C3_checksum_covers_body.1 _ _ _ (by decide) (by decide),
   claim_C3_checksum_covers_body.2 _ _ _ _ _ (by decide) (by decide) (by decide)⟩

/-! ## C8 and C9: the checksum maintenance tool -/

theorem splitlinesAux_cons (c : Char) (s acc : Bytes)
    (hn : c ≠ '\n') (hr : c ≠ '\x0d') :
    splitlinesAux (c :: s) acc = splitlinesAux s (c :: acc) := by
  rw [splitlinesAux.eq_def]
  split
  all_goals first
    | (rename_i heq
       injection heq with h1 h2
       subst h1 h2
       rfl)
    | (exfalso; simp_all)

theorem splitlinesAux_newline (s acc : Bytes) :
    splitlinesAux ('\n' :: s) acc = acc.reverse :: splitlinesAux s [] := rfl

theorem splitlinesAux_r_cons (c2 : Char) (rest2 acc : Bytes) (h : c2 ≠ '\n') :
    splitlinesAux ('\x0d' :: c2 :: rest2) acc
      = acc.reverse :: splitlinesAux (c2 :: rest2) [] := by
  rw [splitlinesAux.eq_def]
  split
  all_goals first
    | rfl
    | (exfalso; simp_all; done)
    | (rename_i heq; injection heq with h1 h2; subst h1 h2; rfl)
    | (rename_i heq; injection heq with h1 h2; subst h2; rfl)
    | (rename_i hcr heq; injection heq with h1 h2; exact absurd h1.symm hcr)

theorem splitlinesAux_nil_clean (acc : Bytes)
    (hacc : ∀ ch ∈ acc, ch ≠ '\n' ∧ ch ≠ '\r') :
    ∀ l ∈ splitlinesAux [] acc, ∀ ch ∈ l, ch ≠ '\n' ∧ ch ≠ '\r' := by
  cases acc with
  | nil =>
    intro l hl
    rw [show splitlinesAux [] [] = [] from rfl] at hl
    cases hl
  | cons a acc2 =>
    intro l hl ch hch
    rw [show splitlinesAux [] (a :: acc2) = [(a :: acc2).reverse] from rfl] at hl
    rcases List.mem_singleton.mp hl with rfl
    exact hacc ch (List.mem_reverse.mp hch)

theorem splitlinesAux_clean_aux :
    ∀ (n : Nat) (s acc : Bytes), s.length ≤ n →
      (∀ ch ∈ acc, ch ≠ '\n' ∧ ch ≠ '\r') →
      ∀ l ∈ splitlinesAux s acc, ∀ ch ∈ l, ch ≠ '\n' ∧ ch ≠ '\r' := by
  intro n
  induction n with
  | zero =>
    intro s acc hlen hacc
    have hs : s = [] := by
      cases s
      · rfl
      · simp at hlen
    subst hs
    exact splitlinesAux_nil_clean acc hacc
  | succ k ih =>
    intro s acc hlen hacc l hl
    cases s with
    | nil => exact splitlinesAux_nil_clean acc hacc l hl
    | cons c rest =>
      by_cases hcn : c = '\n'
      · subst hcn
        rw [splitlinesAux_newline] at hl
        rcases List.mem_cons.mp hl with rfl | hl
        · intro ch hch
          exact hacc ch (List.mem_reverse.mp hch)
        · exact ih rest [] (by simp at hlen ⊢; omega) (by simp) l hl
      · by_cases hcr : c = '\x0d'
        · subst hcr
          cases rest with
          | nil =>
            rw [show splitlinesAux ['\x0d'] acc
                = acc.reverse :: splitlinesAux [] [] from rfl] at hl
            rcases List.mem_cons.mp hl with rfl | hl
            · intro ch hch
              exact hacc ch (List.mem_reverse.mp hch)
            · rw [show splitlinesAux [] [] = [] from rfl] at hl
              cases hl
          | cons c2 rest2 =>
            by_cases hc2 : c2 = '\n'
            · subst hc2
              rw [show splitlinesAux ('\x0d' :: '\n' :: rest2) acc
                  = acc.reverse :: splitlinesAux rest2 [] from rfl] at hl
              rcases List.mem_cons.mp hl with rfl | hl
              · intro ch hch
                exact hacc ch (List.mem_reverse.mp hch)
              · exact ih rest2 [] (by simp at hlen ⊢; omega) (by simp) l hl
            · rw [splitlinesAux_r_cons c2 rest2 acc hc2] at hl
              rcases List.mem_cons.mp hl with rfl | hl
              · intro ch hch
                exact hacc ch (List.mem_reverse.mp hch)
              · exact ih (c2 :: rest2) [] (by simp at hlen ⊢; omega)
                  (by simp) l hl
        · rw [splitlinesAux_cons c rest acc hcn hcr] at hl
          refine ih rest (c :: acc) (by simp at hlen ⊢; omega) ?_ l hl
          intro ch hch
          rcases List.mem_cons.mp hch with rfl | hch
          · exact ⟨hcn, hcr⟩
          · exact hacc ch hch

theorem splitlines_clean (s : Bytes) :
    ∀ l ∈ splitlines s, ∀ ch ∈ l, ch ≠ '\n' ∧ ch ≠ '\r' :=
  splitlinesAux_clean_aux s.length s [] le_rfl (by simp)

theorem splitlinesAux_line :
    ∀ (l : Bytes), (∀ ch ∈ l, ch ≠ '\n' ∧ ch ≠ '\r') →
      ∀ (s acc : Bytes),
        splitlinesAux (l ++ '\n' :: s) acc
          = (acc.reverse ++ l) :: splitlinesAux s [] := by
  intro l
  induction l with
  | nil => intro _ s acc; simpa using splitlinesAux_newline s acc
  | cons c l2 ih =>
    intro hl s acc
    have hc := hl c (by simp)
    rw [List.cons_append, splitlinesAux_cons c _ acc hc.1 hc.2,
      ih (fun ch hch => hl ch (by simp [hch])) s (c :: acc)]
    simp

theorem splitlines_joinNL :
    ∀ (ls : List Bytes), ls ≠ [] →
      (∀ l ∈ ls, ∀ ch ∈ l, ch ≠ '\n' ∧ ch ≠ '\r') →
      splitlines (joinNL ls) = ls := by
  intro ls
  induction ls with
  | nil => intro h _; exact absurd rfl h
  | cons l ls2 ih =>
    intro _ hcl
    cases ls2 with
    | nil =>
      show splitlinesAux (l ++ ['\n']) [] = [l]
      have := splitlinesAux_line l (hcl l (by simp)) [] []
      simpa [splitlinesAux] using this
    | cons l2 ls3 =>
      show splitlinesAux (l ++ '\n' :: joinNL (l2 :: ls3)) [] = l :: l2 :: ls3
      rw [splitlinesAux_line l (hcl l (by simp)) (joinNL (l2 :: ls3)) []]
      simp only [List.reverse_nil, List.nil_append, List.cons.injEq, true_and]
      exact ih (by simp) (fun l3 h3 => hcl l3 (by simp [h3]))

theorem hexDigit_clean :
    ∀ m : Nat, m < 16 → hexDigit m ≠ '\n' ∧ hexDigit m ≠ '\r' := by decide

theorem natToHexAux_clean :
    ∀ (fuel n : Nat), ∀ ch ∈ natToHexAux fuel n, ch ≠ '\n' ∧ ch ≠ '\r' := by
  intro fuel
  induction fuel with
  | zero => intro n ch hch; cases hch
  | succ f ih =>
    intro n ch hch
    by_cases h0 : n = 0
    · simp [natToHexAux, h0] at hch
    · simp only [natToHexAux, if_neg h0, List.mem_append,
        List.mem_singleton] at hch
      rcases hch with hch | rfl
      · exact ih _ ch hch
      · exact hexDigit_clean (n % 16) (Nat.mod_lt _ (by omega))

theorem natToHex_clean (n : Nat) :
    ∀ ch ∈ natToHex n, ch ≠ '\n' ∧ ch ≠ '\r' := by
  intro ch hch
  unfold natToHex at hch
  split at hch
  · have : ch = '0' := by simpa using hch
    subst this
    exact ⟨by decide, by decide⟩
  · exact natToHexAux_clean 64 n ch hch

theorem calc_digest_clean {data digest : Bytes}
    (h : calculateYamlFileChecksum data = .ok digest) :
    ∀ ch ∈ digest, ch ≠ '\n' ∧ ch ≠ '\r' := by
  unfold calculateYamlFileChecksum at h
  split at h
  · have := Except.ok.inj h
    subst this
    exact natToHex_clean _
  · exact Except.noConfusion h

theorem checksumLine_clean (digest : Bytes)
    (hd : ∀ ch ∈ digest, ch ≠ '\n' ∧ ch ≠ '\r') :
    ∀ ch ∈ checksumLine digest, ch ≠ '\n' ∧ ch ≠ '\r' := by
  intro ch hch
  rcases List.mem_append.mp hch with h | h
  · have hmark : ∀ ch ∈ markerWS, ch ≠ '\n' ∧ ch ≠ '\r' := by decide
    exact hmark ch h
  · exact hd ch h

theorem markerNS_prefix_checksumLine (d : Bytes) :
    markerNS.isPrefixOf (checksumLine d) = true := by
  have h1 : markerNS <+: markerWS := List.isPrefixOf_iff_prefix.mp (by decide)
  exact List.isPrefixOf_iff_prefix.mpr (h1.trans (List.prefix_append _ _))

/-- C8: on a file with at least 5 lines and the checksum marker on line
index 4 whose stored checksum line is stale (differs from the recomputed
one), the maintenance tool with update authorized rewrites exactly line
index 4 to the newly computed digest line, leaving every other line
byte-identical, and without authorization leaves the file untouched and
exits fatally. -/
theorem claim_C8_maintenance_tool (old digest : Bytes)
    (h5 : 5 ≤ (splitlines old).length)
    (hm : markerNS.isPrefixOf ((splitlines old).getD 4 []) = true)
    (hcalc : calculateYamlFileChecksum old = .ok digest)
    (hstale : (splitlines old).getD 4 [] ≠ checksumLine digest) :
    (checkOrUpdateChecksum old true
        = .wrote (joinNL ((splitlines old).set 4 (checksumLine digest))) ∧
      splitlines (joinNL ((splitlines old).set 4 (checksumLine digest)))
        = (splitlines old).set 4 (checksumLine digest) ∧
      ∀ i : Nat, i ≠ 4 →
        (splitlines (joinNL ((splitlines old).set 4 (checksumLine digest)))).getD
            i []
          = (splitlines old).getD i []) ∧
    checkOrUpdateChecksum old false = .sysexitMismatch := by
  have hclean : ∀ l ∈ (splitlines old).set 4 (checksumLine digest),
      ∀ ch ∈ l, ch ≠ '\n' ∧ ch ≠ '\r' := by
    intro l hl
    rcases List.mem_or_eq_of_mem_set hl with h | rfl
    · exact splitlines_clean old l h
    · exact checksumLine_clean digest (calc_digest_clean hcalc)
  have hne : (splitlines old).set 4 (checksumLine digest) ≠ [] := by
    intro hcon
    have hlen := congrArg List.length hcon
    rw [List.length_set] at hlen
    simp only [List.length_nil] at hlen
    omega
  have hinv : splitlines (joinNL ((splitlines old).set 4 (checksumLine digest)))
      = (splitlines old).set 4 (checksumLine digest) :=
    splitlines_joinNL _ hne hclean
  have hneq : joinNL ((splitlines old).set 4 (checksumLine digest)) ≠ old := by
    intro heq
    have h2 : splitlines old = (splitlines old).set 4 (checksumLine digest) := by
      conv_lhs => rw [← heq]
      exact hinv
    have h3 : (splitlines old).getD 4 [] = checksumLine digest := by
      conv_lhs => rw [h2]
      rw [List.getD_eq_getElem?_getD, List.getElem?_set_self (by omega)]
      rfl
    exact hstale h3
  have hguard : ¬(((splitlines old).length < 5
      || !(markerNS.isPrefixOf ((splitlines old).getD 4 []))) = true) := by
    have h1 : ¬ (splitlines old).length < 5 := by omega
    have h2 : markerNS <+: (splitlines old)[4]?.getD [] := by
      have h3 := List.isPrefixOf_iff_prefix.mp hm
      simpa using h3
    simp [h1, h2]
  refine ⟨⟨?_, hinv, ?_⟩, ?_⟩
  · unfold checkOrUpdateChecksum
    rw [if_neg hguard]
    simp only [hcalc]
    rw [if_pos hneq]
    simp
  · intro i hi
    rw [hinv, List.getD_eq_getElem?_getD, List.getD_eq_getElem?_getD,
      List.getElem?_set_ne (fun h => hi h.symm)]
  · unfold checkOrUpdateChecksum
    rw [if_neg hguard]
    simp only [hcalc]
    rw [if_pos hneq]
    simp

theorem claim_C8_maintenance_tool_witness :
    (checkOrUpdateChecksum exStale true
        = .wrote (joinNL ((splitlines exStale).set 4 (checksumLine "ac1e7".data))) ∧
      checkOrUpdateChecksum exStale false = .sysexitMismatch) :=
  ⟨(claim_C8_maintenance_tool exStale "ac1e7".data (by decide) (by decide)
      rfl (by decide)).1.1,
   (claim_C8_maintenance_tool exStale "ac1e7".data (by decide) (by decide)
      rfl (by decide)).2⟩

/-- C9: the maintenance tool decides validity by comparing the reassembled
whole file byte-for-byte against the original, not by comparing digests:
on a file whose line-4 digest already equals the freshly computed digest
but whose raw bytes differ from the normalized reassembly, it reports a
mismatch — fatal without update authorization, and a whole-file rewrite to
the normalized form with it. -/
theorem claim_C9_whole_file_comparison (old digest : Bytes)
    (h5 : 5 ≤ (splitlines old).length)
    (h4 : (splitlines old).getD 4 [] = checksumLine digest)
    (hcalc : calculateYamlFileChecksum old = .ok digest)
    (hneq : joinNL (splitlines old) ≠ old) :
    checkOrUpdateChecksum old false = .sysexitMismatch ∧
    checkOrUpdateChecksum old true = .wrote (joinNL (splitlines old)) := by
  have hset : (splitlines old).set 4 (checksumLine digest) = splitlines old := by
    rw [← h4]
    exact set_getD_self _ 4 []
  have hm : markerNS.isPrefixOf ((splitlines old).getD 4 []) = true := by
    rw [h4]
    exact markerNS_prefix_checksumLine digest
  have hguard : ¬(((splitlines old).length < 5
      || !(markerNS.isPrefixOf ((splitlines old).getD 4 []))) = true) := by
    have h1 : ¬ (splitlines old).length < 5 := by omega
    have h2 : markerNS <+: (splitlines old)[4]?.getD [] := by
      have h3 := List.isPrefixOf_iff_prefix.mp hm
      simpa using h3
    simp [h1, h2]
  constructor
  · unfold checkOrUpdateChecksum
    rw [if_neg hguard]
    simp only [hcalc, hset]
    rw [if_pos hneq]
    simp
  · unfold checkOrUpdateChecksum
    rw [if_neg hguard]
    simp only [hcalc, hset]
    rw [if_pos hneq]
    simp

theorem claim_C9_whole_file_comparison_witness :
    checkOrUpdateChecksum exNoFinalNL false = .sysexitMismatch ∧
    checkOrUpdateChecksum exNoFinalNL true
      = .wrote (joinNL (splitlines exNoFinalNL)) :=
  claim_C9_whole_file_comparison exNoFinalNL "bcd4cddf7bee".data
    (by decide) (by decide) rfl (by decide)

end NuitkaYaml
